import Mathlib

/-
Verification of the PESUConnect scraper (refo.py) against its
natural-language specification.

The Python source is shallowly embedded in Lean:
* strings are Lean `String`s, manipulated through their `List Char` data;
* the regular expressions of the source are embedded as dedicated matcher
  functions that implement the leftmost-match backtracking semantics of the
  CPython `re` module for exactly those patterns;
* HTML that the source accesses through BeautifulSoup is embedded as an
  explicit document tree (`Node`), and the parsing functions operate on that
  tree the way the source operates on the soup;
* fallible code (`int(...)`) returns `Except`;
* the network is an oracle: response bodies are explicit inputs, and the
  requests a function performs are part of its recorded outcome.
-/

namespace Refo

instance {ε α : Type} [DecidableEq ε] [DecidableEq α] : DecidableEq (Except ε α) :=
  fun a b =>
    match a, b with
    | .ok x, .ok y =>
      if h : x = y then isTrue (by rw [h])
      else isFalse (fun hc => by cases hc; exact h rfl)
    | .error x, .error y =>
      if h : x = y then isTrue (by rw [h])
      else isFalse (fun hc => by cases hc; exact h rfl)
    | .ok _, .error _ => isFalse (fun hc => by cases hc)
    | .error _, .ok _ => isFalse (fun hc => by cases hc)

/- ------------------------------------------------------------------ -/
/- Character and string helpers                                        -/
/- ------------------------------------------------------------------ -/

/-- ASCII whitespace as stripped by Python `str.strip` and matched by
the regex class `\s` (the source only ever meets ASCII whitespace). -/
def isPySpace (c : Char) : Bool :=
  c == ' ' || c == '\t' || c == '\n' || c == '\r' || c == '\x0b' || c == '\x0c'

/-- Python `str.strip()` on the character list of a string. -/
def pyStripL (l : List Char) : List Char :=
  ((l.dropWhile isPySpace).reverse.dropWhile isPySpace).reverse

/-- Python `str.strip()`. -/
def pyStrip (s : String) : String := String.mk (pyStripL s.data)

/-- ASCII lowercase of one character, as Python `str.lower` acts on the
ASCII characters the source compares. -/
def lowerC (c : Char) : Char := c.toLower

/-- Python `str.lower()` restricted to ASCII. -/
def strLower (s : String) : String := String.mk (s.data.map lowerC)

/-- Worker for `subRuns`: `inRun` records whether the previous character was
part of a run already replaced by an underscore. -/
def subRunsGo (p : Char → Bool) : Bool → List Char → List Char
  | _, [] => []
  | inRun, c :: cs =>
    if p c then
      (if inRun then subRunsGo p true cs else '_' :: subRunsGo p true cs)
    else c :: subRunsGo p false cs

/-- Python `re.sub(r"[class]+", "_", s)` for a character class `p`: every
maximal run of class characters becomes a single underscore. -/
def subRuns (p : Char → Bool) (l : List Char) : List Char := subRunsGo p false l

/-- The character class of the first substitution in `slugify`
(refo.py line 33). -/
def isSlugBanned (c : Char) : Bool :=
  c == '<' || c == '>' || c == ':' || c == '"' || c == '/' || c == '\\' ||
  c == '|' || c == '?' || c == '*' || c == '\n' || c == '\r' || c == '\t'

/-- The characters the specification forbids in a slugified name:
`< > : " / \ | ? *` (whitespace is stated separately). -/
def isClaimBanned (c : Char) : Bool :=
  c == '<' || c == '>' || c == ':' || c == '"' || c == '/' || c == '\\' ||
  c == '|' || c == '?' || c == '*'

/-- refo.py lines 31-35: strip, replace runs of non-portable characters and
whitespace with underscores, cap at 200 characters, default "untitled". -/
def slugify (s : String) : String :=
  let t := pyStripL s.data
  let u := subRuns isSlugBanned t
  let v := subRuns isPySpace u
  let w := v.take 200
  if w.isEmpty then "untitled" else String.mk w

/- ------------------------------------------------------------------ -/
/- Python int() on a stripped string                                   -/
/- ------------------------------------------------------------------ -/

/-- Numeric value of an ASCII digit. -/
def digitVal (c : Char) : Nat := c.toNat - '0'.toNat

/-- Tail of a Python integer literal after its first digit: digits with
single underscores allowed between digits. -/
def pyIntGo : Nat → List Char → Option Nat
  | acc, [] => some acc
  | _, ['_'] => none
  | acc, '_' :: c :: cs =>
    if c.isDigit then pyIntGo (acc * 10 + digitVal c) cs else none
  | acc, c :: cs =>
    if c.isDigit then pyIntGo (acc * 10 + digitVal c) cs else none

/-- Unsigned part of a Python integer literal: nonempty digit sequence. -/
def pyIntCore : List Char → Option Nat
  | [] => none
  | c :: cs => if c.isDigit then pyIntGo (digitVal c) cs else none

/-- Python `int(s)` for an already-stripped ASCII string: optional sign
followed by digits; `none` models the `ValueError` raise. -/
def pyInt? (s : String) : Option Int :=
  match s.data with
  | '+' :: rest => (pyIntCore rest).map (fun n => (n : Int))
  | '-' :: rest => (pyIntCore rest).map (fun n => -(n : Int))
  | l => (pyIntCore l).map (fun n => (n : Int))

/- ------------------------------------------------------------------ -/
/- parse_range (refo.py lines 369-390)                                 -/
/- ------------------------------------------------------------------ -/

/-- Python `list(range(a, b + 1))` over integers. -/
def intRange (a b : Int) : List Int :=
  (List.range (b + 1 - a).toNat).map (fun k => a + (k : Int))

/-- Python `s.split("-", 1)` for a list known to be handled by the dash
branch: the part before the first dash and the part after it. -/
def splitDash : List Char → List Char × List Char
  | [] => ([], [])
  | c :: cs =>
    if c == '-' then ([], cs)
    else
      let p := splitDash cs
      (c :: p.1, p.2)

/-- refo.py lines 379-382: swap reversed bounds, then clamp each bound
into `[1, max_n]`. -/
def clampPair (max_n : Nat) (st en : Int) : Int × Int :=
  let p := if st > en then (en, st) else (st, en)
  (max 1 (min (max_n : Int) p.1), max 1 (min (max_n : Int) p.2))

/-- refo.py lines 369-390.  The dash branch converts its two parts with
`int(...)` with no exception handler, so a failed conversion there is an
uncaught `ValueError`, modelled as `.error`; the single-integer branch is
wrapped in `try/except` and yields `[]` on failure. -/
def parse_range (text : String) (max_n : Nat) : Except String (List Int) :=
  let s := pyStripL text.data
  if s = [] ∨ s = ['-'] then .ok (intRange 1 max_n)
  else if s.contains '-' then
    let p := splitDash s
    let a := pyStripL p.1
    let b := pyStripL p.2
    match (if a = [] then some 1 else pyInt? (String.mk a)),
          (if b = [] then some (max_n : Int) else pyInt? (String.mk b)) with
    | some st, some en =>
      let q := clampPair max_n st en
      .ok (intRange q.1 q.2)
    | _, _ => .error "ValueError: invalid literal for int"
  else
    match pyInt? (String.mk s) with
    | some n => if 1 ≤ n ∧ n ≤ (max_n : Int) then .ok [n] else .ok []
    | none => .ok []

/-- The clamping demanded by the spec wording: take the lower and upper of
the two bounds, then clamp each into `[1, maxIndex]`. -/
def clampPairSpec (maxIndex : Nat) (st en : Int) : Int × Int :=
  (max 1 (min (maxIndex : Int) (min st en)),
   max 1 (min (maxIndex : Int) (max st en)))

/-- Modelled from the spec (section 4.7 RangeSelector): empty string or a
lone dash means all of `1..maxIndex`; a start-end form has a missing start
default to 1 and a missing end default to maxIndex, reversed bounds are
swapped and both bounds are clamped into `[1, maxIndex]`; a single integer
is accepted only when within `[1, maxIndex]`; anything else yields the
empty list.  The lexical handling (stripping, split at the first dash,
integer syntax) is shared with the source embedding so that the two
definitions differ only in the range semantics being compared. -/
def parseRangeSpec (expr : String) (maxIndex : Nat) : List Int :=
  let s := pyStripL expr.data
  if s = [] ∨ s = ['-'] then intRange 1 maxIndex
  else if s.contains '-' then
    let p := splitDash s
    let a := pyStripL p.1
    let b := pyStripL p.2
    match (if a = [] then some 1 else pyInt? (String.mk a)),
          (if b = [] then some (maxIndex : Int) else pyInt? (String.mk b)) with
    | some st, some en =>
      let q := clampPairSpec maxIndex st en
      intRange q.1 q.2
    | _, _ => []
  else
    match pyInt? (String.mk s) with
    | some n => if 1 ≤ n ∧ n ≤ (maxIndex : Int) then [n] else []
    | none => []

/-- The range expressions accepted by the forms of the spec: empty, lone
dash, start-end with parseable (or missing) integer parts, or a single
parseable integer. -/
def acceptedForm (text : String) : Bool :=
  let s := pyStripL text.data
  s == [] || s == ['-'] ||
    (if s.contains '-' then
      let p := splitDash s
      let a := pyStripL p.1
      let b := pyStripL p.2
      (a == [] || (pyInt? (String.mk a)).isSome) &&
        (b == [] || (pyInt? (String.mk b)).isSome)
    else (pyInt? (String.mk s)).isSome)

/- ------------------------------------------------------------------ -/
/- Regular expressions of the source, as dedicated matchers             -/
/- ------------------------------------------------------------------ -/

/-- Case-insensitive character comparison (re.IGNORECASE on ASCII). -/
def lcEq (a b : Char) : Bool := a.toLower == b.toLower

/-- Consume a literal case-insensitively; the rest of the input on success. -/
def eatLitCI : List Char → List Char → Option (List Char)
  | [], l => some l
  | _ :: _, [] => none
  | p :: ps, c :: cs => if lcEq p c then eatLitCI ps cs else none

/-- Consume a literal exactly (for the case-sensitive patterns). -/
def eatLit : List Char → List Char → Option (List Char)
  | [], l => some l
  | _ :: _, [] => none
  | p :: ps, c :: cs => if p == c then eatLit ps cs else none

/-- The regex piece that skips whitespace greedily; every use in the
source is followed by a character disjoint from whitespace, so maximal
munch is exact. -/
def skipWs (l : List Char) : List Char := l.dropWhile isPySpace

/-- Consume one expected character. -/
def eatChar (c : Char) : List Char → Option (List Char)
  | [] => none
  | d :: ds => if d == c then some ds else none

/-- Consume one character of a class. -/
def eatIf (p : Char → Bool) : List Char → Option (List Char)
  | [] => none
  | c :: cs => if p c then some cs else none

/-- The class matched by the quote alternatives in the source patterns. -/
def isQuote (c : Char) : Bool := c == '\'' || c == '"'

/-- The class of the token pattern, case-insensitive hex digits and dash. -/
def isHexDash (c : Char) : Bool :=
  (decide ('a' ≤ c) && decide (c ≤ 'f')) ||
  (decide ('A' ≤ c) && decide (c ≤ 'F')) || c.isDigit || c == '-'

/-- A nonempty maximal digit run, the capture of the patterns using a
group of one or more digits followed by material disjoint from digits. -/
def digitsRun (l : List Char) : Option String :=
  let ds := l.takeWhile Char.isDigit
  if ds.isEmpty then none else some (String.mk ds)

/-- Integer value of a digit string, as int() computes it on the captured
group. -/
def digitsToNat (l : List Char) : Nat :=
  l.foldl (fun acc c => acc * 10 + digitVal c) 0

/-- Match at the head of the input the download-trigger call pattern of
refo.py lines 292 and 312: the literal call name, optional whitespace, an
opening parenthesis, optional whitespace, a quote, six or more hex/dash
characters (the captured token), and a quote; all case-insensitive.
Returns the captured token and the rest of the input after the match. -/
def matchDownloadCallAt (l : List Char) : Option (String × List Char) := do
  let r1 ← eatLitCI "downloadcoursedoc".data l
  let r2 ← eatChar '(' (skipWs r1)
  let r3 ← eatIf isQuote (skipWs r2)
  let tok := r3.takeWhile isHexDash
  if tok.length ≥ 6 then
    (eatIf isQuote (r3.dropWhile isHexDash)).map (fun r4 => (String.mk tok, r4))
  else none

/-- The tail of the anchor-href pattern after the optional "slide":
the literal "coursedoc/" and the captured token. -/
def matchHexTail (l : List Char) : Option (String × List Char) := do
  let r ← eatLitCI "coursedoc/".data l
  let tok := r.takeWhile isHexDash
  if tok.length ≥ 6 then some (String.mk tok, r.dropWhile isHexDash) else none

/-- After the literal "download": the optional group "slide" is greedy, so
the branch consuming it is preferred. -/
def matchAfterDownload (l : List Char) : Option (String × List Char) :=
  match (eatLitCI "slide".data l).bind matchHexTail with
  | some r => some r
  | none => matchHexTail l

/-- The word part of the anchor-href pattern. -/
def matchDownloadWord (l : List Char) : Option (String × List Char) :=
  (eatLitCI "download".data l).bind matchAfterDownload

/-- The greedy quote-free star of the anchor-href pattern: the longest
prefix is preferred, backing off one character at a time. -/
def matchHrefStar (r2 : List Char) : Nat → Option (String × List Char)
  | 0 => matchDownloadWord r2
  | k + 1 =>
    match matchDownloadWord (r2.drop (k + 1)) with
    | some r => some r
    | none => matchHrefStar r2 k

/-- Match at the head of input the anchor-href download pattern of
refo.py line 314: the literal href=, a quote, a run of quote-free
characters, the word download with an optional slide, coursedoc/ and the
captured token; all case-insensitive. -/
def matchHrefAt (l : List Char) : Option (String × List Char) := do
  let r1 ← eatLitCI "href=".data l
  let r2 ← eatIf isQuote r1
  let run := r2.takeWhile (fun c => !isQuote c)
  matchHrefStar r2 run.length

/-- Python re.findall restricted to the capture of one group: scan left to
right; at each position try the matcher; on a match record the capture and
continue after the match (CPython advances one position on a zero-width
match, which these patterns cannot produce); otherwise advance one
position.  The fuel is the input length, an upper bound on the number of
steps since every step consumes at least one character. -/
def findallGo (m : List Char → Option (String × List Char)) :
    Nat → List Char → List String
  | 0, _ => []
  | _ + 1, [] => []
  | fuel + 1, c :: cs =>
    match m (c :: cs) with
    | some (t, rest) =>
      if rest.length < cs.length + 1 then t :: findallGo m fuel rest
      else t :: findallGo m fuel cs
    | none => findallGo m fuel cs

/-- Python re.findall over a string, collecting captured groups in match
order. -/
def findall (m : List Char → Option (String × List Char)) (s : String) :
    List String :=
  findallGo m s.data.length s.data

/-- Python re.search: leftmost matching position wins. -/
def searchWith {α : Type} (m : List Char → Option α) : List Char → Option α
  | [] => m []
  | c :: cs =>
    match m (c :: cs) with
    | some r => some r
    | none => searchWith m cs

/-- The download-trigger call tokens of a response body, in match order
(refo.py lines 292 and 312). -/
def downloadCallTokens (body : String) : List String :=
  findall matchDownloadCallAt body

/-- The anchor-href download tokens of a response body, in match order
(refo.py line 314). -/
def hrefDownloadTokens (body : String) : List String :=
  findall matchHrefAt body

/-- Match at the head of input the course-id pattern of refo.py line 138:
the (case-insensitively redundant) alternation of the handler name,
optional whitespace, an opening parenthesis, optional whitespace, an
optional quote, optional whitespace and a captured digit run.  When the
optional quote is present but no digits follow, the regex backtracks to
the branch that leaves the quote unconsumed. -/
def matchCourseIdAt (l : List Char) : Option String := do
  let r1 ← eatLitCI "clickoncoursecontent".data l
  let r2 ← eatChar '(' (skipWs r1)
  let r3 := skipWs r2
  match r3 with
  | '\'' :: rest =>
    (match digitsRun (skipWs rest) with
     | some d => some d
     | none => digitsRun (skipWs r3))
  | _ => digitsRun (skipWs r3)

/-- re.search of the course-id pattern over the serialized row markup. -/
def searchCourseId (s : String) : Option String :=
  searchWith matchCourseIdAt s.data

/-- Match at the head of input the unit-number pattern of refo.py
line 181: the literal Unit (case-insensitive), optional whitespace, a
captured digit run. -/
def matchUnitNumAt (l : List Char) : Option String := do
  let r1 ← eatLitCI "unit".data l
  digitsRun (skipWs r1)

/-- The digits of the five-or-more-argument unit handler, with the
optional closing quote (greedy, falling back to the unquoted branch),
optional whitespace and the mandatory closing parenthesis. -/
def matchHandleUnitDigits (x : List Char) : Option String :=
  let ds := x.takeWhile Char.isDigit
  if ds.isEmpty then none
  else
    let r4 := x.dropWhile Char.isDigit
    match r4 with
    | '\'' :: rest =>
      (match eatChar ')' (skipWs rest) with
       | some _ => some (String.mk ds)
       | none => (eatChar ')' (skipWs r4)).map (fun _ => String.mk ds))
    | _ => (eatChar ')' (skipWs r4)).map (fun _ => String.mk ds)

/-- Match at the head of input the unit-id handler pattern of refo.py
line 186: the literal handler name (case-insensitive), optional
whitespace, an opening parenthesis, optional whitespace, an optional
quote, a captured digit run, an optional quote, optional whitespace and a
closing parenthesis. -/
def matchHandleUnitAt (l : List Char) : Option String := do
  let r1 ← eatLitCI "handleclassunit".data l
  let r2 ← eatChar '(' (skipWs r1)
  let r3 := skipWs r2
  match r3 with
  | '\'' :: rest =>
    (match matchHandleUnitDigits rest with
     | some d => some d
     | none => matchHandleUnitDigits r3)
  | _ => matchHandleUnitDigits r3

/-- Match at the head of input the case-sensitive href fallback pattern
of refo.py line 191: the literal courseUnit_ and a captured digit run. -/
def matchCourseUnitAt (l : List Char) : Option String := do
  let r1 ← eatLit "courseUnit_".data l
  digitsRun r1

/-- Match at the head of input the extended Content-Disposition filename
pattern of refo.py line 337 (case-sensitive): the literal parameter
introducer and a captured nonempty run of non-semicolon characters. -/
def matchExtNameAt (l : List Char) : Option String := do
  let r1 ← eatLit "filename*=UTF-8''".data l
  let run := r1.takeWhile (fun c => c != ';')
  if run.isEmpty then none else some (String.mk run)

/-- The value run of the plain filename parameter: one or more characters
that are neither a double quote nor a semicolon. -/
def filenameValueRun (x : List Char) : Option String :=
  let run := x.takeWhile (fun c => c != '"' && c != ';')
  if run.isEmpty then none else some (String.mk run)

/-- Match at the head of input the plain Content-Disposition filename
pattern of refo.py line 341 (case-sensitive): the literal filename=, an
optional double quote (greedy with fallback), and the captured value
run; the trailing optional quote of the pattern always succeeds. -/
def matchPlainNameAt (l : List Char) : Option String := do
  let r1 ← eatLit "filename=".data l
  match r1 with
  | '"' :: rest =>
    (match filenameValueRun rest with
     | some v => some v
     | none => filenameValueRun r1)
  | _ => filenameValueRun r1

/-- The lazy dot-star group of the five-parameter pattern together with
its optional closing quote: group lengths are tried shortest first; for a
given length the branch consuming a closing quote is preferred; the dot
does not match a newline.  `acc` holds the reversed group characters. -/
def lazyGroup {α : Type} (next : List Char → Option α) :
    List Char → List Char → Option (String × α)
  | acc, [] =>
    match next [] with
    | some a => some (String.mk acc.reverse, a)
    | none => none
  | acc, c :: cs =>
    match (if c == '\'' then
             match next cs with
             | some a => some a
             | none => next (c :: cs)
           else next (c :: cs)) with
    | some a => some (String.mk acc.reverse, a)
    | none => if c == '\n' then none else lazyGroup next (c :: acc) cs

/-- One argument segment of the five-parameter pattern of refo.py
line 219: optional whitespace, a comma, optional whitespace, an optional
opening quote (greedy with fallback), then the lazy captured group with
its optional closing quote, then the continuation. -/
def segMatch {α : Type} (next : List Char → Option α) (l : List Char) :
    Option (String × α) := do
  let r1 ← eatChar ',' (skipWs l)
  let r2 := skipWs r1
  match r2 with
  | '\'' :: rest =>
    (match lazyGroup next [] rest with
     | some r => some r
     | none => lazyGroup next [] r2)
  | _ => lazyGroup next [] r2

/-- Match at the head of input the five-parameter inline handler pattern
of refo.py lines 218-221: the literal handler name (case-insensitive),
optional whitespace, an opening parenthesis, optional whitespace, a
quoted nonempty first capture, and four comma-separated optionally quoted
lazy captures; the pattern ends after the optional quote following the
fifth group, so that lazy fifth group always captures the empty string. -/
def matchHandleCallAt (l : List Char) :
    Option (String × String × String × String × String) := do
  let r1 ← eatLitCI "handleclasscoursecontentunit".data l
  let r2 ← eatChar '(' (skipWs r1)
  let r3 ← eatChar '\'' (skipWs r2)
  let g1 := r3.takeWhile (fun c => c != '\'')
  if g1.isEmpty then none
  else do
    let r4 ← eatChar '\'' (r3.dropWhile (fun c => c != '\''))
    let res ← segMatch (fun x2 =>
        segMatch (fun x3 =>
          segMatch (fun x4 =>
            segMatch (fun x5 => some x5) x4) x3) x2) r4
    some (String.mk g1, res.1, res.2.1, res.2.2.1, res.2.2.2.1)

/-- re.search of the five-parameter pattern over an onclick value. -/
def searchHandleCall (s : String) :
    Option (String × String × String × String × String) :=
  searchWith matchHandleCallAt s.data

/- ------------------------------------------------------------------ -/
/- The parsed HTML document, as BeautifulSoup exposes it                -/
/- ------------------------------------------------------------------ -/

mutual
/-- An element or text node of the parsed document (tag names are already
lowercased by the html.parser backend). -/
inductive Node where
  | text (s : String)
  | elem (tag : String) (attrs : List (String × String)) (children : NodeList)
inductive NodeList where
  | nil
  | cons (hd : Node) (tl : NodeList)
end

/-- Tag.get(name): the first value of the attribute; none elsewhere. -/
def Node.attr : Node → String → Option String
  | .text _, _ => none
  | .elem _ attrs _, k => (attrs.find? (fun kv => kv.1 == k)).map (fun kv => kv.2)

mutual
/-- find_all(tag): the matching descendant elements in document order. -/
def findAllN (t : String) : Node → List Node
  | .text _ => []
  | .elem _ _ cs => findAllL t cs
def findAllL (t : String) : NodeList → List Node
  | .nil => []
  | .cons n ns =>
    (match n with
     | .elem tg _ _ => if tg == t then [n] else []
     | .text _ => []) ++ findAllN t n ++ findAllL t ns
end

/-- find(tag): the first matching descendant in document order. -/
def findTag (t : String) (n : Node) : Option Node := (findAllN t n).head?

mutual
/-- find(id=value): the first descendant carrying that id attribute. -/
def findByIdN (v : String) : Node → Option Node
  | .text _ => none
  | .elem _ _ cs => findByIdL v cs
def findByIdL (v : String) : NodeList → Option Node
  | .nil => none
  | .cons n ns =>
    match (if n.attr "id" == some v then some n else none) with
    | some r => some r
    | none =>
      match findByIdN v n with
      | some r => some r
      | none => findByIdL v ns
end

mutual
/-- The text fragments of a node, in document order. -/
def textsN : Node → List String
  | .text s => [s]
  | .elem _ _ cs => textsL cs
def textsL : NodeList → List String
  | .nil => []
  | .cons n ns => textsN n ++ textsL ns
end

/-- get_text(" ", strip=True): each text fragment stripped, empty ones
dropped, the rest joined with single spaces. -/
def getTextSS (n : Node) : String :=
  String.intercalate " " (((textsN n).map pyStrip).filter (fun s => s != ""))

/-- Text escaping performed by str(tag) on character data. -/
def escTextL : List Char → List Char
  | [] => []
  | c :: cs =>
    (if c == '&' then "&amp;".data
     else if c == '<' then "&lt;".data
     else if c == '>' then "&gt;".data
     else [c]) ++ escTextL cs

/-- Attribute-value escaping performed by str(tag). -/
def escAttrL : List Char → List Char
  | [] => []
  | c :: cs =>
    (if c == '&' then "&amp;".data
     else if c == '"' then "&quot;".data
     else [c]) ++ escAttrL cs

/-- Rendering of an attribute list by str(tag). -/
def attrsRender : List (String × String) → List Char
  | [] => []
  | kv :: rest =>
    ' ' :: (kv.1.data ++ ('=' :: '"' ::
      (escAttrL kv.2.data ++ ('"' :: attrsRender rest))))

mutual
/-- str(tag): the markup of a node, re-serialized. -/
def serializeN : Node → List Char
  | .text s => escTextL s.data
  | .elem t attrs cs =>
    '<' :: (t.data ++ attrsRender attrs ++ ('>' :: serializeL cs)) ++
      ('<' :: '/' :: (t.data ++ ['>']))
def serializeL : NodeList → List Char
  | .nil => []
  | .cons n ns => serializeN n ++ serializeL ns
end

/-- str(tag) as a string. -/
def serializeNode (n : Node) : String := String.mk (serializeN n)

/- ------------------------------------------------------------------ -/
/- The three HTML parsing functions                                    -/
/- ------------------------------------------------------------------ -/

/-- One subject table row as refo.py lines 143-148 build it. -/
structure SubjectRow where
  cells : List String
  course_id : Option String
deriving DecidableEq

/-- refo.py lines 129-149: the subjects table inside the named container
(or the whole soup), headers from all th cells, and for every row with at
least one td its stripped cell texts plus the course id searched in the
serialized row markup. -/
def parse_subjects_with_course_ids (doc : Node) :
    List String × List SubjectRow :=
  let container := (findByIdN "getStudentSubjectsBasedOnSemesters" doc).getD doc
  match findTag "table" container with
  | none => ([], [])
  | some table =>
    ((findAllN "th" table).map getTextSS,
     (findAllN "tr" table).filterMap (fun tr =>
       let tds := findAllN "td" tr
       if tds.isEmpty then none
       else some { cells := tds.map getTextSS,
                   course_id := searchCourseId (serializeNode tr) }))

/-- One unit row as refo.py lines 179-194 build it. -/
structure UnitRow where
  number : Option Nat
  title : String
  unit_id : Option String
deriving DecidableEq

/-- refo.py lines 173-195: every anchor inside the named container (or the
whole soup) yields a unit; the number comes from the Unit-number pattern
on the anchor text, the unit id from the handler pattern on a truthy
onclick attribute, falling back to the href pattern. -/
def extract_units_from_tabs (doc : Node) : List UnitRow :=
  let ul := (findByIdN "courselistunit" doc).getD doc
  (findAllN "a" ul).map (fun a =>
    let text := getTextSS a
    let num := (searchWith matchUnitNumAt text.data).map
      (fun d => digitsToNat d.data)
    let uid :=
      match a.attr "onclick" with
      | some oc => if oc != "" then searchWith matchHandleUnitAt oc.data else none
      | none => none
    { number := num, title := text,
      unit_id :=
        match uid with
        | some u => some u
        | none => searchWith matchCourseUnitAt ((a.attr "href").getD "").data })

/-- The five opaque argument slots of a class entry (refo.py 246-252). -/
structure EntryArgs where
  uuid : Option String
  courseId : Option String
  unitId : Option String
  classNo : Option String
  resourceType : Option String
deriving DecidableEq

/-- One class entry as refo.py lines 243-253 build it. -/
structure ClassEntry where
  title : String
  resource_counts : List String
  args : EntryArgs
deriving DecidableEq

/-- args[i] if args else None, for the five slots. -/
def mkArgs : Option (String × String × String × String × String) → EntryArgs
  | none => ⟨none, none, none, none, none⟩
  | some (a, b, c, d, e) => ⟨some a, some b, some c, some d, some e⟩

/-- A truthy onclick attribute of an element matched against the
five-parameter pattern (refo.py lines 230-236). -/
def onclickArgs (el : Node) :
    Option (String × String × String × String × String) :=
  match el.attr "onclick" with
  | some oc => if oc != "" then searchHandleCall oc else none
  | none => none

/-- The loop body of refo.py lines 223-253 for one table row: skipped
without td cells; otherwise the title is the first cell's text, the args
come from the first match of the five-parameter pattern over the row, its
first cell and the anchors inside that cell, and the remaining cells give
the resource counts (anchor text if an anchor is present, first digit run
if any, else the text or a dash). -/
def classEntryOfRow (tr : Node) : Option ClassEntry :=
  match findAllN "td" tr with
  | [] => none
  | td0 :: tdRest =>
    some { title := getTextSS td0
           resource_counts := tdRest.map (fun td =>
             let txt := match findTag "a" td with
               | some a => getTextSS a
               | none => getTextSS td
             match searchWith digitsRun txt.data with
             | some d => d
             | none => if txt != "" then txt else "-")
           args := mkArgs (([tr, td0] ++ findAllN "a" td0).findSome? onclickArgs) }

/-- refo.py line 222: rows from tbody when present, else the whole table. -/
def rowsOf (table : Node) : List Node :=
  match findTag "tbody" table with
  | some tb => findAllN "tr" tb
  | none => findAllN "tr" table

/-- refo.py lines 211-254: the first table of the response, headers from
thead when present, and one class entry per body row having td cells. -/
def parse_live_unit_classes (doc : Node) : List String × List ClassEntry :=
  match findTag "table" doc with
  | none => ([], [])
  | some table =>
    ((match findTag "thead" table with
      | some th => (findAllN "th" th).map getTextSS
      | none => (findAllN "th" table).map getTextSS),
     (rowsOf table).filterMap classEntryOfRow)

/- ------------------------------------------------------------------ -/
/- fetch_preview_and_ids (refo.py lines 258-315)                       -/
/- ------------------------------------------------------------------ -/

/-- Python truthiness of an optional string. -/
def truthy : Option String → Bool
  | none => false
  | some s => s != ""

/-- What one call of fetch_preview_and_ids did: the document ids it
returned, and whether it issued the tier-1 preview request (together with
its CSRF refresh) and the tier-2 legacy request. -/
structure ResolveOutcome where
  ids : List String
  previewRequested : Bool
  legacyRequested : Bool
deriving DecidableEq

/-- No duplicates, as a boolean. -/
def nodupB : List String → Bool
  | [] => true
  | x :: xs => !xs.contains x && nodupB xs

/-- out is a possible value of Python list(set(l)): the same members,
each exactly once.  CPython enumerates a set in hash order, which string
hash randomization leaves unspecified, so the embedding is relational in
the order. -/
def isSetListOf (l out : List String) : Bool :=
  nodupB out && l.all (fun x => out.contains x) && out.all (fun x => l.contains x)

/-- refo.py lines 258-315, relationally in the set-enumeration order.
The function returns empty at once, with no request, unless uuid and
courseId are truthy; it then issues the tier-1 preview request and
returns list(set(tokens)) when any download-trigger token matches; the
tier-2 legacy request happens only when tier 1 matched nothing and unitId
and classNo are truthy, and its body is scanned first with the trigger
pattern and, if that is empty, the anchor-href pattern. -/
def resolveAccepts (a : EntryArgs) (previewBody legacyBody : String)
    (o : ResolveOutcome) : Bool :=
  if !(truthy a.uuid && truthy a.courseId) then
    decide (o = ⟨[], false, false⟩)
  else
    let l1 := downloadCallTokens previewBody
    if !l1.isEmpty then
      o.previewRequested && !o.legacyRequested && isSetListOf l1 o.ids
    else if !(truthy a.unitId && truthy a.classNo) then
      o.previewRequested && !o.legacyRequested && o.ids.isEmpty
    else
      let l2 := downloadCallTokens legacyBody
      o.previewRequested && o.legacyRequested &&
        (if !l2.isEmpty then isSetListOf l2 o.ids
         else isSetListOf (hrefDownloadTokens legacyBody) o.ids)

/-- Deduplication keeping the first occurrence of each token, the order
the specification asserts. -/
def firstSeenDedupGo (seen : List String) : List String → List String
  | [] => []
  | x :: xs =>
    if seen.contains x then firstSeenDedupGo seen xs
    else x :: firstSeenDedupGo (x :: seen) xs

/-- First-seen-order deduplication of a token list. -/
def firstSeenDedup (l : List String) : List String := firstSeenDedupGo [] l

/- ------------------------------------------------------------------ -/
/- login (refo.py lines 66-86)                                         -/
/- ------------------------------------------------------------------ -/

/-- needle is an initial segment of the haystack. -/
def startsWithL : List Char → List Char → Bool
  | [], _ => true
  | _ :: _, [] => false
  | a :: as, b :: bs => a == b && startsWithL as bs

/-- Python substring containment (the in operator) on character lists. -/
def containsSubL (needle : List Char) : List Char → Bool
  | [] => startsWithL needle []
  | l@(_ :: cs) => startsWithL needle l || containsSubL needle cs

/-- refo.py line 82: the login success heuristic.  respOk is resp.ok,
respUrl the final URL, respText the response body. -/
def login_heuristic (respOk : Bool) (respUrl respText : String) : Bool :=
  respOk &&
    (containsSubL (strLower "studentProfilePESU").data (strLower respUrl).data ||
     containsSubL "logout".data (strLower respText).data)

/- ------------------------------------------------------------------ -/
/- download_by_ids filename resolution (refo.py lines 333-356)         -/
/- ------------------------------------------------------------------ -/

/-- refo.py lines 346-354: extension guessed from the Content-Type. -/
def contentTypeExt (ct : String) : String :=
  let c := (strLower ct).data
  if containsSubL "pdf".data c then ".pdf"
  else if containsSubL "word".data c || containsSubL "msword".data c then ".docx"
  else if containsSubL "powerpoint".data c || containsSubL "ppt".data c then ".pptx"
  else if containsSubL "zip".data c then ".zip"
  else ".pdf"

/-- The two-digit zero-padded sequence number of the f-string. -/
def fmt02 (n : Nat) : String := if n < 10 then "0" ++ toString n else toString n

/-- re.search of the extended filename pattern over Content-Disposition. -/
def extFilename? (cd : String) : Option String :=
  searchWith matchExtNameAt cd.data

/-- re.search of the plain filename pattern over Content-Disposition. -/
def plainFilename? (cd : String) : Option String :=
  searchWith matchPlainNameAt cd.data

/-- refo.py lines 333-356: the output filename for the i-th of numIds
document ids of entry number siNo with the given title, from the
Content-Disposition header cd and the Content-Type header ct. -/
def resolveFilename (cd ct : String) (i numIds siNo : Nat) (title : String) :
    String :=
  let fromHeader :=
    if cd != "" then
      match extFilename? cd with
      | some f => some f
      | none => plainFilename? cd
    else none
  match fromHeader with
  | some f => f
  | none =>
    let suffix := if numIds > 1 then "_" ++ toString i else ""
    fmt02 siNo ++ suffix ++ "_" ++ slugify title ++ contentTypeExt ct

/-- What it means, propositionally, for a string to contain another up to
ASCII case: some middle segment of its characters lowercases to the
lowercased needle. -/
def ContainsCI (hay needle : String) : Prop :=
  ∃ p mid q, hay.data = p ++ mid ++ q ∧ mid.map lowerC = needle.data.map lowerC

lemma clampPair_eq_spec (m : Nat) (st en : Int) :
    clampPair m st en = clampPairSpec m st en := by
  unfold clampPair clampPairSpec
  by_cases h : st > en <;> simp [h] <;> constructor <;> omega

/- ------------------------------------------------------------------ -/
/- slugify support                                                     -/
/- ------------------------------------------------------------------ -/

lemma mem_subRunsGo {p : Char → Bool} {c : Char} :
    ∀ {b : Bool} {l : List Char}, c ∈ subRunsGo p b l →
      c = '_' ∨ (c ∈ l ∧ p c = false) := by
  intro b l
  induction l generalizing b with
  | nil => intro hc; simp [subRunsGo] at hc
  | cons d ds ih =>
    intro hc
    by_cases hd : p d
    · simp only [subRunsGo, hd, if_true] at hc
      cases b with
      | true =>
        rcases ih hc with h | ⟨h1, h2⟩
        · exact Or.inl h
        · exact Or.inr ⟨List.mem_cons_of_mem _ h1, h2⟩
      | false =>
        rcases List.mem_cons.mp hc with h | h
        · exact Or.inl h
        · rcases ih h with h' | ⟨h1, h2⟩
          · exact Or.inl h'
          · exact Or.inr ⟨List.mem_cons_of_mem _ h1, h2⟩
    · simp only [subRunsGo, hd, if_false] at hc
      rcases List.mem_cons.mp hc with h | h
      · subst h
        exact Or.inr ⟨List.mem_cons_self _ _, by simpa using hd⟩
      · rcases ih h with h' | ⟨h1, h2⟩
        · exact Or.inl h'
        · exact Or.inr ⟨List.mem_cons_of_mem _ h1, h2⟩

lemma claimBanned_le_slugBanned {c : Char} (h : isSlugBanned c = false) :
    isClaimBanned c = false := by
  simp only [isSlugBanned, Bool.or_eq_false_iff] at h
  simp only [isClaimBanned, Bool.or_eq_false_iff]
  tauto

/-- C3: parse_range satisfies the specified range semantics on every
accepted form (empty or lone dash gives all of 1..maxIndex; a start-end
form defaults a missing start to 1 and a missing end to maxIndex, swaps
reversed bounds and clamps both into [1, maxIndex]; a single in-range
integer n gives [n]), and in particular the five concrete examples of the
specification hold. -/
theorem parse_range_meets_spec :
    (∀ s m, acceptedForm s = true → parse_range s m = .ok (parseRangeSpec s m)) ∧
    parse_range "-" 5 = .ok [1, 2, 3, 4, 5] ∧
    parse_range "2-4" 5 = .ok [2, 3, 4] ∧
    parse_range "4-2" 5 = .ok [2, 3, 4] ∧
    parse_range "abc" 5 = .ok [] ∧
    parse_range "9" 5 = .ok [] := by
  refine ⟨?_, by decide, by decide, by decide, by decide, by decide⟩
  intro s m h
  simp only [parse_range, parseRangeSpec] ; simp only [acceptedForm] at h
  by_cases h1 : pyStripL s.data = [] ∨ pyStripL s.data = ['-']
  · simp [h1]
  · push_neg at h1
    obtain ⟨h1a, h1b⟩ := h1
    simp only [h1a, h1b, beq_iff_eq, Bool.or_eq_true, or_false, false_or,
      if_false, ite_false, not_false_iff] at h ⊢
    by_cases h2 : (pyStripL s.data).contains '-' = true
    · simp only [h2, eq_self_iff_true, if_true, ite_true] at h ⊢
      simp only [Bool.and_eq_true] at h
      obtain ⟨ha, hb⟩ := h
      rw [Bool.or_eq_true, beq_iff_eq] at ha hb
      by_cases hA : pyStripL (splitDash (pyStripL s.data)).1 = []
      · by_cases hB : pyStripL (splitDash (pyStripL s.data)).2 = []
        · simp [hA, hB, clampPair_eq_spec]
        · rcases hb with hb | hb
          · exact absurd hb hB
          · obtain ⟨vb, hvb⟩ := Option.isSome_iff_exists.mp hb
            simp [hA, hB, hvb, clampPair_eq_spec]
      · rcases ha with ha | ha
        · exact absurd ha hA
        · obtain ⟨va, hva⟩ := Option.isSome_iff_exists.mp ha
          by_cases hB : pyStripL (splitDash (pyStripL s.data)).2 = []
          · simp [hA, hB, hva, clampPair_eq_spec]
          · rcases hb with hb | hb
            · exact absurd hb hB
            · obtain ⟨vb, hvb⟩ := Option.isSome_iff_exists.mp hb
              simp [hA, hB, hva, hvb, clampPair_eq_spec]
    · simp only [h2, Bool.false_eq_true, if_false, ite_false] at h ⊢
      obtain ⟨n, hn⟩ := Option.isSome_iff_exists.mp h
      simp only [hn]
      split_ifs <;> rfl

/-- C10: slugify always returns a nonempty string of at most 200
characters containing none of the forbidden filename characters and no
whitespace; when the sanitized, truncated result is empty it returns the
literal "untitled". -/
theorem slugify_safe :
    (∀ s : String, slugify s ≠ "" ∧ (slugify s).length ≤ 200 ∧
      ((slugify s).data.all fun c => !isClaimBanned c && !isPySpace c) = true) ∧
    (∀ s : String,
      (subRuns isPySpace (subRuns isSlugBanned (pyStripL s.data))).take 200 = [] →
      slugify s = "untitled") := by
  constructor
  · intro s
    unfold slugify
    by_cases hemp :
      ((subRuns isPySpace (subRuns isSlugBanned (pyStripL s.data))).take
        200).isEmpty = true
    · simp only [hemp, if_true, ite_true]
      exact ⟨by decide, by decide, by decide⟩
    · simp only [hemp, Bool.false_eq_true, if_false, ite_false]
      refine ⟨?_, ?_, ?_⟩
      · intro hcontra
        have hwnil :
            (subRuns isPySpace (subRuns isSlugBanned (pyStripL s.data))).take
              200 = [] :=
          congrArg String.data hcontra
        rw [hwnil] at hemp
        simp at hemp
      · show ((subRuns isPySpace (subRuns isSlugBanned (pyStripL s.data))).take
          200).length ≤ 200
        rw [List.length_take]
        exact min_le_left _ _
      · rw [List.all_eq_true]
        intro c hc
        have hcv : c ∈ subRuns isPySpace (subRuns isSlugBanned (pyStripL s.data)) :=
          List.take_subset _ _ hc
        rcases mem_subRunsGo hcv with h' | ⟨h1, h2⟩
        · subst h'; decide
        · rcases mem_subRunsGo h1 with h'' | ⟨_, h4⟩
          · subst h''; decide
          · simp [claimBanned_le_slugBanned h4, h2]
  · intro s hs
    unfold slugify
    simp [hs]

/-- Witness for C3 at the concrete accepted input "2-4" with maxIndex 5. -/
theorem parse_range_meets_spec_witness :
    acceptedForm "2-4" = true ∧ parse_range "2-4" 5 = .ok (parseRangeSpec "2-4" 5) :=
  ⟨by decide, parse_range_meets_spec.1 "2-4" 5 (by decide)⟩

/-- C2 (failing input): the dash branch of parse_range converts its parts
with int() outside any exception handler, so the input "a-b" raises an
uncaught ValueError instead of yielding the empty list the specification
promises. -/
theorem parse_range_dash_raises :
    parse_range "a-b" 5 = .error "ValueError: invalid literal for int" := by
  decide

/-- Witness for C10: a whitespace-only title slugifies to "untitled", and a
nonempty title slugifies to a nonempty name. -/
theorem slugify_safe_witness :
    slugify " \t " = "untitled" ∧ slugify "a b:c" ≠ "" :=
  ⟨slugify_safe.2 " \t " (by decide), (slugify_safe.1 "a b:c").1⟩

lemma startsWithL_iff {n l : List Char} :
    startsWithL n l = true ↔ ∃ q, l = n ++ q := by
  induction n generalizing l with
  | nil => simp [startsWithL]
  | cons a as ih =>
    cases l with
    | nil => simp [startsWithL]
    | cons b bs =>
      simp only [startsWithL, Bool.and_eq_true, beq_iff_eq, ih]
      constructor
      · rintro ⟨rfl, q, rfl⟩; exact ⟨q, rfl⟩
      · rintro ⟨q, hq⟩
        rw [List.cons_append] at hq
        cases hq
        exact ⟨rfl, q, rfl⟩

lemma containsSubL_iff {n h : List Char} :
    containsSubL n h = true ↔ ∃ p q, h = p ++ n ++ q := by
  induction h with
  | nil =>
    simp only [containsSubL, startsWithL_iff]
    constructor
    · rintro ⟨q, hq⟩
      exact ⟨[], q, by simpa using hq⟩
    · rintro ⟨p, q, hpq⟩
      refine ⟨q, ?_⟩
      rcases List.append_eq_nil.mp (List.append_eq_nil.mp hpq.symm).1 with ⟨rfl, rfl⟩
      simpa using hpq
  | cons c cs ih =>
    simp only [containsSubL, Bool.or_eq_true, startsWithL_iff, ih]
    constructor
    · rintro (⟨q, hq⟩ | ⟨p, q, hq⟩)
      · exact ⟨[], q, by simpa using hq⟩
      · exact ⟨c :: p, q, by simp [hq]⟩
    · rintro ⟨p, q, hpq⟩
      cases p with
      | nil => exact Or.inl ⟨q, by simpa using hpq⟩
      | cons x xs =>
        rw [List.cons_append, List.cons_append] at hpq
        cases hpq
        exact Or.inr ⟨xs, q, rfl⟩

lemma containsSubL_lower_iff {needle hay : List Char} :
    containsSubL (needle.map lowerC) (hay.map lowerC) = true ↔
      ∃ p mid q, hay = p ++ mid ++ q ∧ mid.map lowerC = needle.map lowerC := by
  rw [containsSubL_iff]
  constructor
  · rintro ⟨p, q, hpq⟩
    obtain ⟨l1, l2, rfl, h1, h2⟩ := List.append_eq_map_iff.mp hpq.symm
    obtain ⟨l1a, l1b, rfl, h1a, h1b⟩ := List.append_eq_map_iff.mp h1.symm
    exact ⟨l1a, l1b, l2, by simp, h1b⟩
  · rintro ⟨p, mid, q, rfl, hmid⟩
    exact ⟨p.map lowerC, q.map lowerC, by simp [hmid]⟩

/-- C7: the login heuristic succeeds exactly when the response is ok and
the final URL contains the authenticated profile path case-insensitively
or the response body contains a logout indicator case-insensitively. -/
theorem login_success_iff (ok : Bool) (url body : String) :
    login_heuristic ok url body = true ↔
      ok = true ∧
        (ContainsCI url "studentProfilePESU" ∨ ContainsCI body "logout") := by
  have hprof :
      containsSubL (strLower "studentProfilePESU").data (strLower url).data =
        containsSubL ("studentProfilePESU".data.map lowerC)
          (url.data.map lowerC) := rfl
  have hlog :
      containsSubL "logout".data (strLower body).data =
        containsSubL ("logout".data.map lowerC) (body.data.map lowerC) := by
    have : "logout".data = "logout".data.map lowerC := by decide
    rw [← this]
    rfl
  unfold login_heuristic
  rw [Bool.and_eq_true, Bool.or_eq_true, hprof, hlog,
    containsSubL_lower_iff, containsSubL_lower_iff]
  rfl

lemma extFilename_empty : extFilename? "" = none := rfl

lemma plainFilename_empty : plainFilename? "" = none := rfl

/-- C6: the filename of a downloaded response is resolved in strict
priority order: the extended RFC5987-style Content-Disposition parameter
first (independently of the Content-Type), then the plain filename
parameter, and otherwise the synthesized name built from the two-digit
sequence number, an index suffix exactly when more than one id is being
saved, the slugified title, and the extension inferred from the
Content-Type. -/
theorem filename_priority :
    (∀ cd ct i n k t f, extFilename? cd = some f →
      resolveFilename cd ct i n k t = f) ∧
    (∀ cd ct i n k t f, extFilename? cd = none → plainFilename? cd = some f →
      resolveFilename cd ct i n k t = f) ∧
    (∀ cd ct i n k t, extFilename? cd = none → plainFilename? cd = none →
      resolveFilename cd ct i n k t =
        fmt02 k ++ (if n > 1 then "_" ++ toString i else "") ++ "_" ++
          slugify t ++ contentTypeExt ct) := by
  refine ⟨?_, ?_, ?_⟩
  · intro cd ct i n k t f hf
    by_cases hcd : cd = ""
    · rw [hcd, extFilename_empty] at hf; cases hf
    · unfold resolveFilename
      simp [hcd, hf]
  · intro cd ct i n k t f hext hf
    by_cases hcd : cd = ""
    · rw [hcd, plainFilename_empty] at hf; cases hf
    · unfold resolveFilename
      simp [hcd, hext, hf]
  · intro cd ct i n k t hext hplain
    by_cases hcd : cd = ""
    · unfold resolveFilename
      simp [hcd]
    · unfold resolveFilename
      simp [hcd, hext, hplain]

/-- Witness for C6: an extended filename wins over a zip Content-Type,
and with no Content-Disposition the synthesized zip name is produced. -/
theorem filename_priority_witness :
    resolveFilename "attachment; filename*=UTF-8''report.docx"
      "application/zip" 1 1 3 "T" = "report.docx" ∧
    resolveFilename "" "application/zip" 2 3 4 "Lec 1" = "04_2_Lec_1.zip" := by
  constructor
  · exact filename_priority.1 _ _ 1 1 3 "T" "report.docx" (by rfl)
  · rw [filename_priority.2.2 "" "application/zip" 2 3 4 "Lec 1" rfl rfl]
    rfl

lemma isSetListOf_mem {l out : List String} (h : isSetListOf l out = true) :
    nodupB out = true ∧ ∀ t, t ∈ out ↔ t ∈ l := by
  unfold isSetListOf at h
  simp only [Bool.and_eq_true] at h
  obtain ⟨⟨h1, h2⟩, h3⟩ := h
  refine ⟨h1, fun t => ⟨?_, ?_⟩⟩
  · intro ht
    exact List.mem_of_elem_eq_true (List.all_eq_true.mp h3 t ht)
  · intro ht
    exact List.mem_of_elem_eq_true (List.all_eq_true.mp h2 t ht)

lemma isSetListOf_singleton {t : String} {out : List String}
    (h : isSetListOf [t] out = true) : out = [t] := by
  obtain ⟨hnd, hmem⟩ := isSetListOf_mem h
  cases out with
  | nil => simpa using (hmem t).2 (by simp)
  | cons x xs =>
    have hx : x = t := by simpa using (hmem x).1 (by simp)
    subst hx
    cases xs with
    | nil => rfl
    | cons y ys =>
      have hy : y = x := by simpa using (hmem y).1 (by simp)
      subst hy
      simp [nodupB] at hnd

/-- C1 (amended): when uuid and courseId are truthy and the tier-1
preview body contains at least one download-trigger token, every outcome
accepted by the fetch_preview_and_ids embedding returns exactly the
distinct matched tokens, each exactly once in an order list(set(...))
leaves unspecified, and performs no tier-2 request. -/
theorem preview_tokens_resolved (a : EntryArgs) (b1 b2 : String)
    (o : ResolveOutcome)
    (hu : truthy a.uuid = true) (hc : truthy a.courseId = true)
    (hne : downloadCallTokens b1 ≠ [])
    (hacc : resolveAccepts a b1 b2 o = true) :
    nodupB o.ids = true ∧ (∀ t, t ∈ o.ids ↔ t ∈ downloadCallTokens b1) ∧
      o.legacyRequested = false := by
  have hie : (downloadCallTokens b1).isEmpty = false := by
    cases hdc : downloadCallTokens b1 with
    | nil => exact absurd hdc hne
    | cons x xs => rfl
  simp only [resolveAccepts] at hacc
  rw [hu, hc, hie] at hacc
  simp only [Bool.and_self, Bool.not_true, Bool.not_false, Bool.false_eq_true,
    if_false, ite_false, if_true, ite_true, Bool.and_eq_true] at hacc
  obtain ⟨⟨_, hleg⟩, hset⟩ := hacc
  obtain ⟨hnd, hmem⟩ := isSetListOf_mem hset
  exact ⟨hnd, hmem, by simpa using hleg⟩

/-- Witness for C1 (amended) at a concrete two-token preview body. -/
theorem preview_tokens_resolved_witness :
    nodupB (["bbbbbb", "aaaaaa"] : List String) = true ∧
      (∀ t, t ∈ (["bbbbbb", "aaaaaa"] : List String) ↔
        t ∈ downloadCallTokens
          "downloadcoursedoc('aaaaaa') downloadcoursedoc('bbbbbb')") ∧
      (false : Bool) = false :=
  preview_tokens_resolved ⟨some "u", some "c", none, none, none⟩
    "downloadcoursedoc('aaaaaa') downloadcoursedoc('bbbbbb')" ""
    ⟨["bbbbbb", "aaaaaa"], true, false⟩ rfl rfl (by decide) (by decide)

/-- C1 (counterexample): on a preview body holding the distinct tokens
aaaaaa then bbbbbb, the code can return them in the opposite of
first-seen order: list(set(...)) does not preserve insertion order, so
the accepted outcome below differs from the first-seen deduplication the
claim demands. -/
theorem preview_tokens_order_counterexample :
    resolveAccepts ⟨some "u", some "c", none, none, none⟩
      "downloadcoursedoc('aaaaaa') downloadcoursedoc('bbbbbb')" ""
      ⟨["bbbbbb", "aaaaaa"], true, false⟩ = true ∧
    firstSeenDedup (downloadCallTokens
      "downloadcoursedoc('aaaaaa') downloadcoursedoc('bbbbbb')") =
      ["aaaaaa", "bbbbbb"] ∧
    (["bbbbbb", "aaaaaa"] : List String) ≠ ["aaaaaa", "bbbbbb"] :=
  ⟨by decide, by decide, by decide⟩

/-- C5: fetch_preview_and_ids returns empty immediately, with no request
at all, when uuid or courseId is not truthy; the tier-2 legacy request is
made only when tier 1 matched no token and unitId and classNo are both
truthy; and when tier 1 matches nothing while the legacy body matches no
trigger-call token and exactly one anchor-href token, the returned ids
are exactly that one token. -/
theorem resolve_guard_and_fallback :
    (∀ a b1 b2 o, (truthy a.uuid = false ∨ truthy a.courseId = false) →
      resolveAccepts a b1 b2 o = true →
      o = ⟨[], false, false⟩) ∧
    (∀ a b1 b2 o, resolveAccepts a b1 b2 o = true →
      o.legacyRequested = true →
      downloadCallTokens b1 = [] ∧ truthy a.unitId = true ∧
        truthy a.classNo = true) ∧
    (∀ a b1 b2 o t,
      truthy a.uuid = true → truthy a.courseId = true →
      truthy a.unitId = true → truthy a.classNo = true →
      downloadCallTokens b1 = [] → downloadCallTokens b2 = [] →
      hrefDownloadTokens b2 = [t] →
      resolveAccepts a b1 b2 o = true → o.ids = [t]) := by
  refine ⟨?_, ?_, ?_⟩
  · intro a b1 b2 o h hacc
    have hg : (truthy a.uuid && truthy a.courseId) = false := by
      rcases h with h | h <;> simp [h]
    simp only [resolveAccepts] at hacc
    rw [hg] at hacc
    simp only [Bool.not_false, if_true, ite_true] at hacc
    exact of_decide_eq_true hacc
  · intro a b1 b2 o hacc hleg
    simp only [resolveAccepts] at hacc
    by_cases hg : (truthy a.uuid && truthy a.courseId) = true
    · rw [hg] at hacc
      simp only [Bool.not_true, Bool.false_eq_true, if_false, ite_false] at hacc
      by_cases hie : (downloadCallTokens b1).isEmpty = true
      · rw [hie] at hacc
        simp only [Bool.not_true, Bool.false_eq_true, if_false, ite_false] at hacc
        by_cases huc : (truthy a.unitId && truthy a.classNo) = true
        · rw [huc] at hacc
          simp only [Bool.and_eq_true] at huc
          exact ⟨List.isEmpty_iff.mp hie, huc.1, huc.2⟩
        · rw [Bool.eq_false_iff.mpr huc] at hacc
          simp only [Bool.not_false, if_true, ite_true, Bool.and_eq_true] at hacc
          rw [hleg] at hacc
          simp at hacc
      · rw [Bool.eq_false_iff.mpr hie] at hacc
        simp only [Bool.not_false, if_true, ite_true, Bool.and_eq_true] at hacc
        rw [hleg] at hacc
        simp at hacc
    · rw [Bool.eq_false_iff.mpr hg] at hacc
      simp only [Bool.not_false, if_true, ite_true] at hacc
      have := of_decide_eq_true hacc
      rw [this] at hleg
      cases hleg
  · intro a b1 b2 o t hu hc hun hcl hb1 hb2 hhref hacc
    simp only [resolveAccepts] at hacc
    rw [hu, hc, hb1, hun, hcl, hb2] at hacc
    simp only [Bool.and_self, Bool.not_true, Bool.false_eq_true, if_false,
      ite_false, List.isEmpty_nil, Bool.not_false, if_true, ite_true,
      Bool.and_eq_true] at hacc
    rw [hhref] at hacc
    exact isSetListOf_singleton hacc.2

/-- Witness for C5: a missing uuid yields the empty no-request outcome; a
concrete tier-1 miss with a single legacy anchor-href token yields
exactly that token. -/
theorem resolve_guard_and_fallback_witness :
    (⟨[], false, false⟩ : ResolveOutcome) = ⟨[], false, false⟩ ∧
    (["abc123"] : List String) = ["abc123"] := by
  constructor
  · exact resolve_guard_and_fallback.1 ⟨none, some "c", none, none, none⟩
      "" "" ⟨[], false, false⟩ (Or.inl rfl) (by decide)
  · exact resolve_guard_and_fallback.2.2 ⟨some "u", some "c", some "1", some "2", none⟩
      "no tokens here"
      "<a href='/Academy/a/referenceMeterials/downloadslidecoursedoc/abc123'>doc</a>"
      ⟨["abc123"], true, true⟩ "abc123" rfl rfl rfl rfl (by decide) (by decide)
      (by decide) (by decide)

/-- C8: a subject table row with at least one cell whose serialized markup
has no match of the course-id handler pattern is kept in the parse result,
with courseId absent and its stripped cell texts unchanged. -/
theorem subjects_row_without_handler (doc table tr : Node)
    (htable : findTag "table"
      ((findByIdN "getStudentSubjectsBasedOnSemesters" doc).getD doc) =
        some table)
    (htr : tr ∈ findAllN "tr" table)
    (htds : findAllN "td" tr ≠ [])
    (hmatch : searchCourseId (serializeNode tr) = none) :
    ({ cells := (findAllN "td" tr).map getTextSS, course_id := none } :
      SubjectRow) ∈ (parse_subjects_with_course_ids doc).2 := by
  have hie : (findAllN "td" tr).isEmpty = false := by
    cases h : findAllN "td" tr with
    | nil => exact absurd h htds
    | cons x xs => rfl
  simp only [parse_subjects_with_course_ids]
  rw [htable]
  refine List.mem_filterMap.mpr ⟨tr, htr, ?_⟩
  rw [hie, hmatch]
  rfl

/-- Witness for C8 at a concrete one-row subjects table without the
handler attribute. -/
theorem subjects_row_without_handler_witness :
    ({ cells := ["X"], course_id := none } : SubjectRow) ∈
      (parse_subjects_with_course_ids (.elem "[document]" []
        (.cons (.elem "div" [("id", "getStudentSubjectsBasedOnSemesters")]
          (.cons (.elem "table" []
            (.cons (.elem "tr" []
              (.cons (.elem "td" [] (.cons (.text " X ") .nil)) .nil)) .nil))
            .nil)) .nil))).2 :=
  subjects_row_without_handler _
    (.elem "table" []
      (.cons (.elem "tr" []
        (.cons (.elem "td" [] (.cons (.text " X ") .nil)) .nil)) .nil))
    (.elem "tr" [] (.cons (.elem "td" [] (.cons (.text " X ") .nil)) .nil))
    rfl (List.mem_singleton.mpr rfl) (fun h => List.noConfusion h) rfl

/-- C9: the three HTML parsing functions are pure functions of the parsed
fragment: applied to equal fragments they yield equal entity lists, with
no hidden state. -/
theorem parsing_deterministic :
    ∀ d1 d2 : Node, d1 = d2 →
      parse_subjects_with_course_ids d1 = parse_subjects_with_course_ids d2 ∧
      extract_units_from_tabs d1 = extract_units_from_tabs d2 ∧
      parse_live_unit_classes d1 = parse_live_unit_classes d2 := by
  rintro d1 d2 rfl
  exact ⟨rfl, rfl, rfl⟩

/-- Witness for C9 at a concrete fragment. -/
theorem parsing_deterministic_witness :
    parse_subjects_with_course_ids
        (.elem "div" [] (.cons (.text "x") .nil)) =
      parse_subjects_with_course_ids
        (.elem "div" [] (.cons (.text "x") .nil)) ∧
    extract_units_from_tabs (.elem "div" [] (.cons (.text "x") .nil)) =
      extract_units_from_tabs (.elem "div" [] (.cons (.text "x") .nil)) ∧
    parse_live_unit_classes (.elem "div" [] (.cons (.text "x") .nil)) =
      parse_live_unit_classes (.elem "div" [] (.cons (.text "x") .nil)) :=
  parsing_deterministic _ _ rfl

/-- C4 (amended): the five-parameter handler call is searched on the row
element first, then on its first cell, then on the anchors inside that
cell, the first match winning; the pattern demands a nonempty quoted
first argument and all four comma separators, while arguments 2 to 5 may
be empty in the call and are then recorded as empty strings (the trailing
lazy fifth group always captures the empty string). -/
theorem live_row_args_priority :
    (∀ tr td0 rest g, findAllN "td" tr = td0 :: rest →
      onclickArgs tr = some g →
      (classEntryOfRow tr).map (fun e => e.args) = some (mkArgs (some g))) ∧
    (∀ tr td0 rest g, findAllN "td" tr = td0 :: rest →
      onclickArgs tr = none → onclickArgs td0 = some g →
      (classEntryOfRow tr).map (fun e => e.args) = some (mkArgs (some g))) ∧
    (∀ tr td0 rest, findAllN "td" tr = td0 :: rest →
      onclickArgs tr = none → onclickArgs td0 = none →
      (classEntryOfRow tr).map (fun e => e.args) =
        some (mkArgs ((findAllN "a" td0).findSome? onclickArgs))) ∧
    (∀ doc table tr e, findTag "table" doc = some table →
      tr ∈ rowsOf table → classEntryOfRow tr = some e →
      e ∈ (parse_live_unit_classes doc).2) ∧
    searchHandleCall "handleclasscoursecontentunit('a','b','c','d','e')" =
      some ("a", "b", "c", "d", "") ∧
    searchHandleCall "handleclasscoursecontentunit('a','','','','e')" =
      some ("a", "", "", "", "") := by
  refine ⟨?_, ?_, ?_, ?_, by decide, by decide⟩
  · intro tr td0 rest g htds hg
    simp only [classEntryOfRow]
    rw [htds]
    simp [List.findSome?_cons, hg]
  · intro tr td0 rest g htds htr hg
    simp only [classEntryOfRow]
    rw [htds]
    simp [List.findSome?_cons, htr, hg]
  · intro tr td0 rest htds htr htd
    simp only [classEntryOfRow]
    rw [htds]
    simp [List.findSome?_cons, htr, htd]
  · intro doc table tr e htable hrow hentry
    simp only [parse_live_unit_classes]
    rw [htable]
    exact List.mem_filterMap.mpr ⟨tr, hrow, hentry⟩

/-- Witness for C4 (amended) at a concrete full five-argument row call. -/
theorem live_row_args_priority_witness :
    (classEntryOfRow (.elem "tr"
        [("onclick", "handleclasscoursecontentunit('u','c','n','5','2')")]
        (.cons (.elem "td" [] (.cons (.text "T") .nil)) .nil))).map
      (fun e => e.args) =
      some (mkArgs (some ("u", "c", "n", "5", ""))) :=
  live_row_args_priority.1 _
    (.elem "td" [] (.cons (.text "T") .nil)) [] ("u", "c", "n", "5", "")
    rfl rfl

/-- C4 (counterexample): a row whose inline handler call passes only two
arguments does not match the five-parameter pattern at all, so the parsed
entry records every argument slot as absent, where the claim expects the
call to still match with the supplied groups captured. -/
theorem live_row_partial_call_counterexample :
    (parse_live_unit_classes (.elem "[document]" []
        (.cons (.elem "table" []
          (.cons (.elem "tr"
            [("onclick", "handleclasscoursecontentunit('u1','c1')")]
            (.cons (.elem "td" [] (.cons (.text "T") .nil)) .nil)) .nil))
          .nil))).2 =
      [{ title := "T", resource_counts := [],
         args := ⟨none, none, none, none, none⟩ }] ∧
    searchHandleCall "handleclasscoursecontentunit('u1','c1')" = none :=
  ⟨by decide, by decide⟩

end Refo

